import Mathlib

set_option maxRecDepth 40000

/-
Verification development for the QR WiFi label generator.

The page component (src/unnamed/part_000, part_001, part_002, src/app/page.jsx
are near-identical variants; the claim sources point at part_000 for the main
variant and part_002 for getBackgroundBoundsFromImage) contains:
  * small string utilities (sanitizeNumericDot, escapeWifi, generateValue),
  * a canvas text fitter (fitTextSize / drawCenteredText),
  * a shrink-to-fit packing loop inside buildWifiStickerPng,
  * a 90 degree clockwise bitmap rotation (rotateCanvas90CWTo),
  * a background bounding-box scanner (getBackgroundBoundsFromImage).

Strings are modelled as `List Char`.  JS numbers that are only ever integers in
the program (pixel sizes, gaps, coordinates) are modelled as `Int`; quantities
that are genuinely fractional (measured text widths, scale factors, color
averages) are modelled as `ℚ`.  Canvas 2D contexts are modelled by the one
capability the layout code uses: measuring a text at a font weight and size.
-/

/-- JS `String.prototype.trim` whitespace (the ASCII core plus NBSP); used by
`generateValue` through `String(..).trim()`. -/
def isJsWhitespace (c : Char) : Bool :=
  c = ' ' || c = '\t' || c = '\n' || c = '\r' || c = '\x0b' || c = '\x0c' || c = ' '

/-- `String(value).trim()` : drop leading and trailing whitespace. -/
def jsTrim (s : List Char) : List Char :=
  ((s.dropWhile isJsWhitespace).reverse.dropWhile isJsWhitespace).reverse

/-- The character class `[0-9.]` of `sanitizeNumericDot`. -/
def isDigitOrDot (c : Char) : Bool :=
  c.isDigit || c = '.'

/-- Semantics of `cleaned.replace(/(\..*)\./g, "$1")` on a string of digits and
dots (which is what `sanitizeNumericDot` feeds it): the leftmost match starts at
the first dot, the greedy `.*` backtracks so that the final `\.` consumes the
last dot of the string, and the replacement writes the match back without that
final dot; the global scan then resumes after the last dot, where no further
dot remains.  Hence the pass deletes exactly the last dot whenever the string
holds at least two dots, and is the identity otherwise. -/
def collapseDots (l : List Char) : List Char :=
  if 2 ≤ l.count '.' then (l.reverse.erase '.').reverse else l

/-- `sanitizeNumericDot` from the page component: keep `[0-9.]`, then apply the
second regex pass (whose comment in the source reads "allow a single dot"). -/
def sanitizeNumericDot (value : List Char) : List Char :=
  collapseDots (value.filter isDigitOrDot)

/-- The character class `[\\;,:\"]` of `escapeWifi`. -/
def wifiSpecial (c : Char) : Bool :=
  c = '\\' || c = ';' || c = ',' || c = ':' || c = '\"'

/-- `escapeWifi` : `String(value).replace(/[\\;,:\"]/g, (m) => \x60\\${m}\x60)`,
i.e. each special character is replaced by a backslash followed by itself. -/
def escapeWifi (value : List Char) : List Char :=
  (value.map (fun c => if wifiSpecial c then ['\\', c] else [c])).flatten

/-- A stored QR entry (the object pushed by `handleAdd`). -/
structure WifiItem where
  ssid : List Char
  password : List Char
  isOpen : Bool
  networkType : List Char

/-- `generateValue` from the page component. -/
def generateValue (item : WifiItem) : List Char :=
  let escapedSsid := escapeWifi (jsTrim item.ssid)
  if item.isOpen then
    "WIFI:T:nopass;S:".data ++ escapedSsid ++ ";;".data
  else
    let escapedPassword := escapeWifi (jsTrim item.password)
    "WIFI:T:WPA;S:".data ++ escapedSsid ++ ";P:".data ++ escapedPassword ++ ";;".data

/-- The one capability of a 2D context that the layout code uses: after
`setFont(ctx, {weight, sizePx})`, `ctx.measureText(text).width` is a function
of the weight, the size and the text. -/
structure Ctx where
  measure : Int → Int → List Char → ℚ

/-- The `while` loop of `fitTextSize`, compiled with an explicit fuel so the
definition is structurally recursive; `fitTextSize` below supplies
`(startPx - minPx).toNat` fuel, which is always enough because each pass
lowers `sizePx` by 2 and the guard needs `minPx < sizePx`. -/
def fitTextSizeLoop (ctx : Ctx) (text : List Char) (maxWidth : ℚ) (weight : Int)
    (minPx : Int) : Nat → Int → Int
  | 0, _ => minPx
  | fuel + 1, sizePx =>
    if minPx < sizePx then
      if ctx.measure weight sizePx text ≤ maxWidth then sizePx
      else fitTextSizeLoop ctx text maxWidth weight minPx fuel (sizePx - 2)
    else minPx

/-- `fitTextSize` from the page component: starting at `startPx`, step down by
2 while the measured width exceeds `maxWidth` and the size is above `minPx`;
return `minPx` when the loop runs out. -/
def fitTextSize (ctx : Ctx) (text : List Char) (maxWidth : ℚ) (weight : Int)
    (startPx minPx : Int) : Int :=
  fitTextSizeLoop ctx text maxWidth weight minPx (startPx - minPx).toNat startPx

/-- `drawCenteredText` fits the text and draws it at the resulting size (the
drawing itself writes pixels and raises nothing); the returned value is the
size actually used. -/
def drawCenteredText (ctx : Ctx) (text : List Char) (maxWidth : ℚ) (weight : Int)
    (startPx minPx : Int) : Int :=
  fitTextSize ctx text maxWidth weight startPx minPx

theorem fitTextSizeLoop_ge_min (ctx : Ctx) (text : List Char) (maxWidth : ℚ)
    (weight minPx : Int) :
    ∀ (fuel : Nat) (sizePx : Int),
      minPx ≤ fitTextSizeLoop ctx text maxWidth weight minPx fuel sizePx := by
  intro fuel
  induction fuel with
  | zero => intro sizePx; simp [fitTextSizeLoop]
  | succ n ih =>
    intro sizePx
    simp only [fitTextSizeLoop]
    by_cases hg : minPx < sizePx
    · simp only [hg, if_true]
      by_cases hm : ctx.measure weight sizePx text ≤ maxWidth
      · simp [hm]; omega
      · simp [hm]; exact ih (sizePx - 2)
    · simp [hg]

theorem fitTextSizeLoop_le_max (ctx : Ctx) (text : List Char) (maxWidth : ℚ)
    (weight minPx : Int) :
    ∀ (fuel : Nat) (sizePx : Int),
      fitTextSizeLoop ctx text maxWidth weight minPx fuel sizePx ≤ max sizePx minPx := by
  intro fuel
  induction fuel with
  | zero => intro sizePx; simp [fitTextSizeLoop]
  | succ n ih =>
    intro sizePx
    simp only [fitTextSizeLoop]
    by_cases hg : minPx < sizePx
    · simp only [hg, if_true]
      by_cases hm : ctx.measure weight sizePx text ≤ maxWidth
      · simp [hm]
      · simp only [hm, if_false]
        have := ih (sizePx - 2)
        omega
    · simp [hg]

theorem fitTextSize_ge_min (ctx : Ctx) (text : List Char) (maxWidth : ℚ)
    (weight startPx minPx : Int) :
    minPx ≤ fitTextSize ctx text maxWidth weight startPx minPx :=
  fitTextSizeLoop_ge_min ctx text maxWidth weight minPx _ startPx

theorem fitTextSize_le_max (ctx : Ctx) (text : List Char) (maxWidth : ℚ)
    (weight startPx minPx : Int) :
    fitTextSize ctx text maxWidth weight startPx minPx ≤ max startPx minPx :=
  fitTextSizeLoop_le_max ctx text maxWidth weight minPx _ startPx

theorem fitTextSizeLoop_mono_width (ctx : Ctx) (text : List Char) (weight minPx : Int)
    (w1 w2 : ℚ) (hw : w1 ≤ w2) :
    ∀ (fuel : Nat) (sizePx : Int),
      fitTextSizeLoop ctx text w1 weight minPx fuel sizePx ≤
        fitTextSizeLoop ctx text w2 weight minPx fuel sizePx := by
  intro fuel
  induction fuel with
  | zero => intro sizePx; simp [fitTextSizeLoop]
  | succ n ih =>
    intro sizePx
    simp only [fitTextSizeLoop]
    by_cases hg : minPx < sizePx
    · simp only [hg, if_true]
      by_cases h2 : ctx.measure weight sizePx text ≤ w2
      · by_cases h1 : ctx.measure weight sizePx text ≤ w1
        · simp [h1, h2]
        · simp only [h1, h2, if_true, if_false]
          have := fitTextSizeLoop_le_max ctx text w1 weight minPx n (sizePx - 2)
          omega
      · have h1 : ¬ ctx.measure weight sizePx text ≤ w1 := fun h => h2 (h.trans hw)
        simp only [h1, h2, if_false]
        exact ih (sizePx - 2)
    · simp [hg]

/-- The result of the fitting loop is either the floor or a size of the probed
form `sizePx - 2*k` strictly above the floor at which the text fits. -/
theorem fitTextSizeLoop_mem (ctx : Ctx) (text : List Char) (maxWidth : ℚ)
    (weight minPx : Int) :
    ∀ (fuel : Nat) (sizePx : Int),
      fitTextSizeLoop ctx text maxWidth weight minPx fuel sizePx = minPx ∨
        (minPx < fitTextSizeLoop ctx text maxWidth weight minPx fuel sizePx ∧
          (∃ k : Nat,
            fitTextSizeLoop ctx text maxWidth weight minPx fuel sizePx = sizePx - 2 * (k : Int)) ∧
          ctx.measure weight (fitTextSizeLoop ctx text maxWidth weight minPx fuel sizePx) text
            ≤ maxWidth) := by
  intro fuel
  induction fuel with
  | zero => intro sizePx; left; simp [fitTextSizeLoop]
  | succ n ih =>
    intro sizePx
    simp only [fitTextSizeLoop]
    by_cases hg : minPx < sizePx
    · simp only [hg, if_true]
      by_cases hm : ctx.measure weight sizePx text ≤ maxWidth
      · right
        refine ⟨by simpa [hm] using hg, ⟨0, by simp [hm]⟩, by simp [hm]⟩
      · simp only [hm, if_false]
        rcases ih (sizePx - 2) with h | ⟨hlt, ⟨k, hk⟩, hfit⟩
        · exact Or.inl h
        · exact Or.inr ⟨hlt, ⟨k + 1, by push_cast; omega⟩, hfit⟩
    · left; simp [hg]

/-- Every probed size strictly between the loop's result and the start value
failed the width test (given enough fuel). -/
theorem fitTextSizeLoop_maximal (ctx : Ctx) (text : List Char) (maxWidth : ℚ)
    (weight minPx : Int) :
    ∀ (fuel : Nat) (sizePx : Int), sizePx - minPx ≤ 2 * (fuel : Int) →
      ∀ t : Int, (∃ k : Nat, t = sizePx - 2 * (k : Int)) → minPx < t →
        fitTextSizeLoop ctx text maxWidth weight minPx fuel sizePx < t →
        ¬ ctx.measure weight t text ≤ maxWidth := by
  intro fuel
  induction fuel with
  | zero =>
    intro sizePx hfuel t ⟨k, hk⟩ hmin _
    omega
  | succ n ih =>
    intro sizePx hfuel t ⟨k, hk⟩ hmin hlt
    simp only [fitTextSizeLoop] at hlt
    by_cases hg : minPx < sizePx
    · simp only [hg, if_true] at hlt
      by_cases hm : ctx.measure weight sizePx text ≤ maxWidth
      · simp [hm] at hlt; omega
      · simp only [hm, if_false] at hlt
        rcases Nat.eq_zero_or_pos k with hk0 | hkpos
        · subst hk0
          simp at hk
          subst hk
          exact hm
        · have hk' : t = (sizePx - 2) - 2 * ((k - 1 : Nat) : Int) := by
            push_cast [hkpos]
            omega
          exact ih (sizePx - 2) (by omega) t ⟨k - 1, hk'⟩ hmin hlt
    · omega

/-
The packing loop of `buildWifiStickerPng`.  The sticker is rendered on the
portrait base canvas (`ROTATE_CONTENT_FOR_HORIZONTAL_LABEL` is true, so
`makeStickerCanvas` returns a 600x1000 canvas): `labelW = 600`, `labelH = 1000`.
-/

def labelW : Int := 600
def labelH : Int := 1000
def padTop : Int := 55
def padBottom : Int := 55
def maxTextW : ℚ := 490
def gapLogoQr : Int := 22
def gapPassSsid : Int := 6
def gapSsidNet : Int := 4
def gapNetFooter : Int := 14
def availH : Int := labelH - padTop - padBottom

/-- Everything the packing loop reads that stays constant across iterations:
the context (for text measuring), the three text lines, and the pre-computed
logo and footer-icon heights.  The heights are JS numbers that are either an
integer or NaN (for degenerate image dimensions, see `wifiHOf` / `logoHOf`):
`none` stands for NaN. -/
structure PackEnv where
  ctx : Ctx
  passText : List Char
  ssidText : List Char
  netText : List Char
  logoH : Option Int
  wifiH : Option Int

/-- The mutable sizes of the packing loop. -/
structure PackState where
  qrSize : Int
  gapQrText : Int
  passStartPx : Int
  ssidStartPx : Int
  netStartPx : Int
deriving DecidableEq

/-- Initial candidate sizes (`qrSize = 440`, `gapQrText = 38`, start font
sizes 88/56/74). -/
def packInit : PackState := ⟨440, 38, 88, 56, 74⟩

/-- The fitted password size at a state: `fitTextSize` at weight 900 with
floor 42. -/
def passPxAt (e : PackEnv) (s : PackState) : Int :=
  fitTextSize e.ctx e.passText maxTextW 900 s.passStartPx 42

/-- The fitted SSID size at a state: weight 800, floor 28. -/
def ssidPxAt (e : PackEnv) (s : PackState) : Int :=
  fitTextSize e.ctx e.ssidText maxTextW 800 s.ssidStartPx 28

/-- The fitted network label size at a state: weight 900, floor 34. -/
def netPxAt (e : PackEnv) (s : PackState) : Int :=
  fitTextSize e.ctx e.netText maxTextW 900 s.netStartPx 34

def footerTopAt (wifiH : Int) : Int := labelH - padBottom - wifiH

def qrTopAt (logoH : Int) : Int := padTop + logoH + gapLogoQr

/-- `passTop` of an iteration: the text block stacked bottom-up above the
footer. -/
def passTopAt (e : PackEnv) (wifiH : Int) (s : PackState) : Int :=
  footerTopAt wifiH - gapNetFooter - netPxAt e s - gapSsidNet - ssidPxAt e s -
    gapPassSsid - passPxAt e s

/-- `required` of an iteration. -/
def requiredAt (e : PackEnv) (logoH wifiH : Int) (s : PackState) : Int :=
  (qrTopAt logoH - padTop) + s.qrSize + s.gapQrText +
    (footerTopAt wifiH - passTopAt e wifiH s) + wifiH

/-- The break condition `fits && required <= availH` of an iteration.  When
`logoH` or `wifiH` is NaN it poisons `qrTop` / `footerTop` / `passTop` /
`required`, and every JS comparison involving NaN is false, so the break test
fails and the loop keeps shrinking. -/
def packDone (e : PackEnv) (s : PackState) : Bool :=
  match e.logoH, e.wifiH with
  | some logoH, some wifiH =>
    decide ((qrTopAt logoH + s.qrSize + s.gapQrText ≤ passTopAt e wifiH s ∧
      qrTopAt logoH + s.qrSize ≤
        footerTopAt wifiH - gapNetFooter -
          (passPxAt e s + ssidPxAt e s + netPxAt e s + gapPassSsid + gapSsidNet)) ∧
      requiredAt e logoH wifiH s ≤ availH)
  | _, _ => false

/-- The shrink step taken when the layout does not fit: first reduce the QR
size, then the QR-to-text gap, then the three start font sizes. -/
def packShrink (s : PackState) : PackState :=
  if 360 < s.qrSize then { s with qrSize := s.qrSize - 12 }
  else if 26 < s.gapQrText then { s with gapQrText := s.gapQrText - 4 }
  else { s with passStartPx := max 60 (s.passStartPx - 4),
                ssidStartPx := max 40 (s.ssidStartPx - 3),
                netStartPx := max 52 (s.netStartPx - 3) }

/-- The `for (let i = 0; i < 18; i += 1)` loop: break when `packDone`,
otherwise shrink and continue. -/
def packLoop (e : PackEnv) : Nat → PackState → PackState
  | 0, s => s
  | n + 1, s => if packDone e s then s else packLoop e n (packShrink s)

/-- The state the loop leaves behind. -/
def packFinal (e : PackEnv) : PackState := packLoop e 18 packInit

/-- The state at the start of iteration `n`, had the loop run unboundedly
(once the layout fits the state no longer changes). -/
def trajState (e : PackEnv) : Nat → PackState
  | 0 => packInit
  | n + 1 =>
    if packDone e (trajState e n) then trajState e n else packShrink (trajState e n)

theorem trajState_stable (e : PackEnv) (k : Nat) (h : packDone e (trajState e k) = true) :
    ∀ m : Nat, trajState e (k + m) = trajState e k := by
  intro m
  induction m with
  | zero => rfl
  | succ n ih =>
    show trajState e (k + n + 1) = trajState e k
    simp only [trajState, ih, h, if_true]

theorem packLoop_eq_trajState (e : PackEnv) :
    ∀ (n k : Nat), packLoop e n (trajState e k) = trajState e (k + n) := by
  intro n
  induction n with
  | zero => intro k; rfl
  | succ m ih =>
    intro k
    simp only [packLoop]
    by_cases h : packDone e (trajState e k)
    · simp only [h, if_true]
      exact (trajState_stable e k h (m + 1)).symm
    · simp only [h, if_false]
      have hstep : packShrink (trajState e k) = trajState e (k + 1) := by
        simp [trajState, h]
      rw [hstep, ih (k + 1), show k + 1 + m = k + (m + 1) by omega]
      simp

theorem packFinal_eq_trajState (e : PackEnv) : packFinal e = trajState e 18 :=
  packLoop_eq_trajState e 18 0

/-
The surrounding `buildWifiStickerPng`: image sizing, the packing loop, the
final bottom-up text placement, and the failure cases.
-/

/-- The natural pixel dimensions of a decoded image. -/
structure ImgDims where
  width : Nat
  height : Nat

/-- JS `Math.round`: round half toward positive infinity. -/
def jsRound (q : ℚ) : Int := ⌊q + 1 / 2⌋

/-- `wifiH = Math.round(wifiImg.height * (56 / wifiImg.height))`, with JS
float semantics at a zero height: `56 / 0 = Infinity`, `0 * Infinity = NaN`,
`Math.round(NaN) = NaN`; `none` stands for NaN (a real case: the footer asset
is an SVG, which can decode with intrinsic height 0). -/
def wifiHOf (wifiImg : ImgDims) : Option Int :=
  if wifiImg.height = 0 then none
  else some (jsRound ((wifiImg.height : ℚ) * (56 / (wifiImg.height : ℚ))))

/-- `logoScale = Math.min(logoMaxW / logoImg.width, logoTargetH / logoImg.height)`
with `logoMaxW = labelW - padX * 2 = 490` and `logoTargetH = 92`, with JS
float semantics for the zero-dimension cases: a division by 0 yields
`Infinity`, which `Math.min` discards against a finite operand; `none`
stands for the `min(Infinity, Infinity)` result of a 0x0 image. -/
def logoScaleOf (logoImg : ImgDims) : Option ℚ :=
  if logoImg.width = 0 then
    if logoImg.height = 0 then none
    else some (92 / (logoImg.height : ℚ))
  else if logoImg.height = 0 then some (490 / (logoImg.width : ℚ))
  else some (min (490 / (logoImg.width : ℚ)) (92 / (logoImg.height : ℚ)))

/-- `logoH = Math.round(logoImg.height * logoScale)`: when the scale is
`Infinity` the image is 0x0, so the product `0 * Infinity` is NaN (`none`);
otherwise the ordinary rounded product. -/
def logoHOf (logoImg : ImgDims) : Option Int :=
  match logoScaleOf logoImg with
  | none => none
  | some scale => some (jsRound ((logoImg.height : ℚ) * scale))

/-- `passText = item?.isOpen ? "OPEN" : String(item?.password || "")`. -/
def passTextOf (item : WifiItem) : List Char :=
  if item.isOpen then "OPEN".data else item.password

/-- The loop environment `buildWifiStickerPng` sets up for a given context,
loaded images and item. -/
def buildEnv (ctx : Ctx) (logoImg wifiImg : ImgDims) (item : WifiItem) : PackEnv :=
  ⟨ctx, passTextOf item, item.ssid, item.networkType, logoHOf logoImg, wifiHOf wifiImg⟩

/-- The failure modes of the compose operation: `return null` when the canvas
yields no 2D context (the spec's SurfaceUnavailableError), and a rejected
`loadImage` promise (the spec's ImageLoadError). -/
inductive StickerError where
  | surfaceUnavailable
  | imageLoad
deriving DecidableEq

/-- JS addition with NaN (`none`): NaN propagates. -/
def jsAddN : Option Int → Option Int → Option Int
  | some a, some b => some (a + b)
  | _, _ => none

/-- JS subtraction with NaN: NaN propagates. -/
def jsSubN : Option Int → Option Int → Option Int
  | some a, some b => some (a - b)
  | _, _ => none

/-- JS `Math.max(0, v)`: `Math.max(0, NaN) = NaN`. -/
def jsMax0N : Option Int → Option Int
  | some a => some (max 0 a)
  | none => none

/-- The sizes and positions `buildWifiStickerPng` resolves for the final
drawing pass (the draw calls themselves only paint pixels and raise nothing,
also at NaN coordinates).  The vertical positions inherit NaN (`none`) from a
degenerate `logoH` / `wifiH`. -/
structure RasterPlan where
  qrSize : Int
  gapQrText : Int
  passStartPx : Int
  ssidStartPx : Int
  netStartPx : Int
  passPx : Int
  ssidPx : Int
  netPx : Int
  passTop : Option Int
  ssidTop : Option Int
  netTop : Option Int
  shiftUp : Option Int
deriving DecidableEq

/-- `buildWifiStickerPng`: bail out with no result when the base canvas has no
2D context (checked before the images are awaited), fail when an image does
not load, otherwise run the packing loop and lay the texts out bottom-up with
the overlap guard `shiftUp`. -/
def buildWifiStickerPng (surface : Option Ctx) (logoImg wifiImg qrImg : Option ImgDims)
    (item : WifiItem) : Except StickerError RasterPlan :=
  match surface with
  | none => .error .surfaceUnavailable
  | some ctx =>
    match logoImg, wifiImg, qrImg with
    | some logo, some wifi, some _ =>
      let e := buildEnv ctx logo wifi item
      let s := packFinal e
      let netPx := netPxAt e s
      let ssidPx := ssidPxAt e s
      let passPx := passPxAt e s
      let footerY := jsSubN (some (labelH - padBottom)) e.wifiH
      let netTop := jsSubN (jsSubN footerY (some gapNetFooter)) (some netPx)
      let ssidTop := jsSubN (jsSubN netTop (some gapSsidNet)) (some ssidPx)
      let passTop := jsSubN (jsSubN ssidTop (some gapPassSsid)) (some passPx)
      let y := jsAddN (jsAddN (some padTop) e.logoH) (some gapLogoQr)
      let minTextTop := jsAddN (jsAddN y (some s.qrSize)) (some s.gapQrText)
      let shiftUp := jsMax0N (jsSubN minTextTop passTop)
      .ok ⟨s.qrSize, s.gapQrText, s.passStartPx, s.ssidStartPx, s.netStartPx,
        passPx, ssidPx, netPx, jsAddN passTop shiftUp, jsAddN ssidTop shiftUp,
        jsAddN netTop shiftUp, shiftUp⟩
    | _, _, _ => .error .imageLoad

theorem jsRound_le_of_le {q : ℚ} {n : Int} (h : q ≤ (n : ℚ)) : jsRound q ≤ n := by
  have h1 : jsRound q ≤ jsRound (n : ℚ) := Int.floor_le_floor (by linarith)
  have h2 : jsRound (n : ℚ) = n := by
    rw [jsRound, add_comm]
    rw [Int.floor_add_int]
    norm_num
  omega

/-- A positive footer-icon height gives exactly `wifiH = 56`. -/
theorem wifiHOf_pos (wifiImg : ImgDims) (hpos : 0 < wifiImg.height) :
    wifiHOf wifiImg = some 56 := by
  rw [wifiHOf, if_neg (by omega)]
  congr 1
  rw [mul_div_assoc', mul_comm, mul_div_assoc, div_self (by positivity), mul_one]
  rw [jsRound, show (56 : ℚ) + 1 / 2 = (56 : Int) + 1 / 2 by norm_num, add_comm,
    Int.floor_add_int]
  norm_num

/-- Unless the logo is 0x0, `logoH` is a finite value of at most 92. -/
theorem logoHOf_le (logoImg : ImgDims) (hpos : 0 < logoImg.width ∨ 0 < logoImg.height) :
    ∃ lh : Int, logoHOf logoImg = some lh ∧ lh ≤ 92 := by
  rcases Nat.eq_zero_or_pos logoImg.height with h0 | hh
  · rcases hpos with hw | hh
    · refine ⟨jsRound ((logoImg.height : ℚ) * (490 / (logoImg.width : ℚ))), ?_, ?_⟩
      · rw [logoHOf, logoScaleOf, if_neg (by omega), if_pos h0]
      · rw [h0]
        apply jsRound_le_of_le
        norm_num
    · omega
  · have hcancel : (logoImg.height : ℚ) * (92 / (logoImg.height : ℚ)) = 92 := by
      rw [mul_div_assoc', mul_comm, mul_div_assoc, div_self (by positivity), mul_one]
    rcases Nat.eq_zero_or_pos logoImg.width with hw0 | hw
    · refine ⟨jsRound ((logoImg.height : ℚ) * (92 / (logoImg.height : ℚ))), ?_, ?_⟩
      · rw [logoHOf, logoScaleOf, if_pos hw0, if_neg (by omega)]
      · rw [hcancel]
        apply jsRound_le_of_le
        norm_num
    · refine ⟨jsRound ((logoImg.height : ℚ) *
        min (490 / (logoImg.width : ℚ)) (92 / (logoImg.height : ℚ))), ?_, ?_⟩
      · rw [logoHOf, logoScaleOf, if_neg (by omega), if_neg (by omega)]
      · apply jsRound_le_of_le
        calc (logoImg.height : ℚ) * min (490 / (logoImg.width : ℚ)) (92 / (logoImg.height : ℚ))
            ≤ (logoImg.height : ℚ) * (92 / (logoImg.height : ℚ)) :=
              mul_le_mul_of_nonneg_left (min_le_right _ _) (by positivity)
          _ = 92 := hcancel
          _ ≤ ((92 : Int) : ℚ) := by norm_num

/-- With the logo capped at 92px, the footer icon at 56px and the fitted font
sizes capped by their 88/56/74 start sizes, the initial layout already
satisfies the break condition: `sum + logoH + wifiH ≤ 366` holds with at most
equality. -/
theorem packDone_init (e : PackEnv) (lh wh : Int) (hlo : e.logoH = some lh)
    (hwi : e.wifiH = some wh) (hlogo : lh ≤ 92) (hwifi : wh ≤ 56) :
    packDone e packInit = true := by
  have hp1 : 42 ≤ passPxAt e packInit := fitTextSize_ge_min _ _ _ _ _ _
  have hs1 : 28 ≤ ssidPxAt e packInit := fitTextSize_ge_min _ _ _ _ _ _
  have hn1 : 34 ≤ netPxAt e packInit := fitTextSize_ge_min _ _ _ _ _ _
  have hp2 : passPxAt e packInit ≤ max 88 42 := fitTextSize_le_max _ _ _ _ _ _
  have hs2 : ssidPxAt e packInit ≤ max 56 28 := fitTextSize_le_max _ _ _ _ _ _
  have hn2 : netPxAt e packInit ≤ max 74 34 := fitTextSize_le_max _ _ _ _ _ _
  simp only [packDone, hlo, hwi, decide_eq_true_eq, passTopAt, requiredAt, qrTopAt,
    footerTopAt, availH, labelH, padTop, padBottom, gapLogoQr, gapNetFooter, gapSsidNet,
    gapPassSsid]
  have hq : packInit.qrSize = 440 := rfl
  have hg : packInit.gapQrText = 38 := rfl
  omega

theorem trajState_const (e : PackEnv) (lh wh : Int) (hlo : e.logoH = some lh)
    (hwi : e.wifiH = some wh) (hlogo : lh ≤ 92) (hwifi : wh ≤ 56) :
    ∀ n : Nat, trajState e n = packInit := by
  intro n
  have := trajState_stable e 0 (packDone_init e lh wh hlo hwi hlogo hwifi) n
  simpa using this

/-- With a NaN `logoH` or `wifiH` the break test fails at every iteration and
the loop runs all 18 shrink steps. -/
theorem trajState_nan (e : PackEnv) (h : e.logoH = none ∨ e.wifiH = none) :
    ∀ n : Nat, trajState e (n + 1) = packShrink (trajState e n) := by
  intro n
  have hdone : packDone e (trajState e n) = false := by
    unfold packDone
    rcases h with h | h
    · rw [h]
    · rw [h]
      rcases e.logoH with _ | lh <;> rfl
  simp [trajState, hdone]

/-- A context whose measured width exceeds `maxTextW` at every size, so every
text line is fitted to its floor. -/
def ctxWide : Ctx := ⟨fun _ _ _ => 1000000⟩

/-- Degenerate images for the C1 counterexample: the footer SVG decodes with
intrinsic height 0, so `wifiH` is NaN and no iteration ever fits. -/
def wifiZeroH : ImgDims := ⟨100, 0⟩

def logoOk : ImgDims := ⟨490, 92⟩

def qrOk : ImgDims := ⟨512, 512⟩

def itemPlain : WifiItem := ⟨"Red".data, "hunter2".data, false, "5.0".data⟩

/-- C1 counterexample: with a zero-height footer image, `wifiH` is NaN
(`56 / 0 = Infinity`, `0 * Infinity = NaN`), every fit comparison is false,
and the packing loop of `buildWifiStickerPng` shrinks for all 18 iterations:
the QR is handed to the renderer at 356 px, below the 360 px floor the claim
asserts.  The build still succeeds and draws at that size. -/
theorem qr_floor_counterexample :
    (trajState (buildEnv ctxWide logoOk wifiZeroH itemPlain) 18).qrSize = 356 ∧
    (packFinal (buildEnv ctxWide logoOk wifiZeroH itemPlain)).qrSize = 356 ∧
    ¬ 360 ≤ (packFinal (buildEnv ctxWide logoOk wifiZeroH itemPlain)).qrSize ∧
    buildWifiStickerPng (some ctxWide) (some logoOk) (some wifiZeroH) (some qrOk)
        itemPlain =
      .ok ⟨356, 26, 60, 40, 52, 42, 28, 34, none, none, none, none⟩ := by
  refine ⟨by decide, by decide, by decide, ?_⟩
  rfl

/-- C1 (amended): in `buildWifiStickerPng`, for every item and all images
whose dimensions do not poison the layout with NaN (the footer image has
positive height and the logo is not 0x0), the QR size never drops below its
360px floor at any iteration of the packing loop nor in the final state; the
three resolved font sizes never drop below their 42/28/34 floors, in every
run whatsoever. -/
theorem qr_and_font_floors (ctx : Ctx) (logoImg wifiImg : ImgDims) (item : WifiItem)
    (n : Nat) (hwifi : 0 < wifiImg.height)
    (hlogo : 0 < logoImg.width ∨ 0 < logoImg.height) :
    (360 ≤ (trajState (buildEnv ctx logoImg wifiImg item) n).qrSize ∧
      360 ≤ (packFinal (buildEnv ctx logoImg wifiImg item)).qrSize) ∧
    42 ≤ passPxAt (buildEnv ctx logoImg wifiImg item)
      (trajState (buildEnv ctx logoImg wifiImg item) n) ∧
    28 ≤ ssidPxAt (buildEnv ctx logoImg wifiImg item)
      (trajState (buildEnv ctx logoImg wifiImg item) n) ∧
    34 ≤ netPxAt (buildEnv ctx logoImg wifiImg item)
      (trajState (buildEnv ctx logoImg wifiImg item) n) := by
  obtain ⟨lh, hlh, hlh92⟩ := logoHOf_le logoImg hlogo
  have hconst := trajState_const (buildEnv ctx logoImg wifiImg item) lh 56
    (by simpa [buildEnv] using hlh) (by simpa [buildEnv] using wifiHOf_pos wifiImg hwifi)
    hlh92 (by omega)
  refine ⟨⟨?_, ?_⟩, fitTextSize_ge_min _ _ _ _ _ _, fitTextSize_ge_min _ _ _ _ _ _,
    fitTextSize_ge_min _ _ _ _ _ _⟩
  · rw [hconst n]; decide
  · rw [packFinal_eq_trajState, hconst 18]; decide

theorem qr_and_font_floors_witness :
    (360 ≤ (trajState (buildEnv ctxWide logoOk ⟨100, 56⟩ itemPlain) 3).qrSize ∧
      360 ≤ (packFinal (buildEnv ctxWide logoOk ⟨100, 56⟩ itemPlain)).qrSize) ∧
    42 ≤ passPxAt (buildEnv ctxWide logoOk ⟨100, 56⟩ itemPlain)
      (trajState (buildEnv ctxWide logoOk ⟨100, 56⟩ itemPlain) 3) ∧
    28 ≤ ssidPxAt (buildEnv ctxWide logoOk ⟨100, 56⟩ itemPlain)
      (trajState (buildEnv ctxWide logoOk ⟨100, 56⟩ itemPlain) 3) ∧
    34 ≤ netPxAt (buildEnv ctxWide logoOk ⟨100, 56⟩ itemPlain)
      (trajState (buildEnv ctxWide logoOk ⟨100, 56⟩ itemPlain) 3) :=
  qr_and_font_floors ctxWide logoOk ⟨100, 56⟩ itemPlain 3 (by decide) (by decide)

/-- C5: when the drawing surface provides no 2D context, the compose
operation fails with the surface-unavailable error (the source's early
`return null`), whatever the images and the item are. -/
theorem surfaceUnavailable_of_no_ctx (logoImg wifiImg qrImg : Option ImgDims)
    (item : WifiItem) :
    buildWifiStickerPng none logoImg wifiImg qrImg item =
      .error .surfaceUnavailable := rfl

/-- C4: the packing loop performs at most 18 shrink steps and terminates;
once an iteration fits, the state never changes again; when no iteration
below the bound fits, the loop hands the state after 18 shrinks to the
renderer; and the renderer always succeeds, using exactly the loop's final
sizes. -/
theorem pack_loop_bounded_best_effort :
    (∀ e : PackEnv, packFinal e = trajState e 18 ∧
      ∃ k : Nat, k ≤ 18 ∧ packFinal e = trajState e k) ∧
    (∀ (e : PackEnv) (n m : Nat), packDone e (trajState e n) = true → n ≤ m →
      trajState e m = trajState e n) ∧
    (∀ e : PackEnv, (∀ n : Nat, n < 18 → packDone e (trajState e n) = false) →
      packFinal e = trajState e 18) ∧
    (∀ (ctx : Ctx) (logoImg wifiImg qrImg : ImgDims) (item : WifiItem),
      ∃ p : RasterPlan,
        buildWifiStickerPng (some ctx) (some logoImg) (some wifiImg) (some qrImg) item =
          .ok p ∧
        p.qrSize = (packFinal (buildEnv ctx logoImg wifiImg item)).qrSize ∧
        p.gapQrText = (packFinal (buildEnv ctx logoImg wifiImg item)).gapQrText ∧
        p.passStartPx = (packFinal (buildEnv ctx logoImg wifiImg item)).passStartPx ∧
        p.ssidStartPx = (packFinal (buildEnv ctx logoImg wifiImg item)).ssidStartPx ∧
        p.netStartPx = (packFinal (buildEnv ctx logoImg wifiImg item)).netStartPx) := by
  refine ⟨fun e => ⟨packFinal_eq_trajState e, 18, le_refl 18, packFinal_eq_trajState e⟩,
    ?_, fun e _ => packFinal_eq_trajState e, ?_⟩
  · intro e n m h hnm
    rw [show m = n + (m - n) by omega]
    exact trajState_stable e n h (m - n)
  · intro ctx logoImg wifiImg qrImg item
    exact ⟨_, rfl, rfl, rfl, rfl, rfl, rfl⟩

/-- A loop environment with an oversized logo band: with `logoH = 500` no
iteration fits, so the loop shrinks for all 18 iterations.  (Unreachable from
`buildWifiStickerPng`, whose finite `logoH` is capped at 92, but it exercises
the loop body; the NaN run of `qr_floor_counterexample` is a reachable analogue.) -/
def env0 : PackEnv := ⟨ctxWide, [], [], [], some 500, some 56⟩

/-- A loop environment whose first iteration already fits. -/
def envFit : PackEnv := ⟨ctxWide, [], [], [], some 0, some 0⟩

theorem pack_loop_bounded_best_effort_witness :
    trajState envFit 5 = trajState envFit 0 ∧ packFinal env0 = trajState env0 18 :=
  ⟨pack_loop_bounded_best_effort.2.1 envFit 0 5 (by decide) (by omega),
    pack_loop_bounded_best_effort.2.2.1 env0 (by decide)⟩

/-- C2 counterexample: in the `env0` run, iteration 10 does not fit and the
loop reduces the font start sizes (88 to 84) even though the QR size is 356 -
below, not at, its 360 floor (440 is not congruent to 360 modulo 12, so the
QR shrink overshoots the floor).  Under the claim, fonts may shrink only when
the QR size sits exactly at its floor. -/
theorem shrink_priority_counterexample :
    packDone env0 (trajState env0 10) = false ∧
    trajState env0 11 = packShrink (trajState env0 10) ∧
    (trajState env0 10).qrSize = 356 ∧
    (trajState env0 10).gapQrText = 26 ∧
    (trajState env0 10).passStartPx = 88 ∧
    (trajState env0 11).passStartPx = 84 ∧
    ¬ (trajState env0 10).qrSize = 360 := by decide

/-- C2 (amended): every non-fitting iteration applies the shrink step, and
the shrink step reduces the QR size by 12 whenever it is above 360 (possibly
landing at 356, one step below), else reduces the gap by 4 whenever it is
above 26, and only when the QR size is at or below 360 and the gap at or
below 26 reduces the three start font sizes by 4/3/3, clamped at 60/40/52. -/
theorem shrink_priority_amended (e : PackEnv) (n : Nat)
    (h : packDone e (trajState e n) = false) :
    trajState e (n + 1) = packShrink (trajState e n) ∧
    ∀ s : PackState,
      (360 < s.qrSize → packShrink s = { s with qrSize := s.qrSize - 12 }) ∧
      (s.qrSize ≤ 360 → 26 < s.gapQrText →
        packShrink s = { s with gapQrText := s.gapQrText - 4 }) ∧
      (s.qrSize ≤ 360 → s.gapQrText ≤ 26 →
        packShrink s = { s with passStartPx := max 60 (s.passStartPx - 4),
                                ssidStartPx := max 40 (s.ssidStartPx - 3),
                                netStartPx := max 52 (s.netStartPx - 3) }) := by
  constructor
  · simp [trajState, h]
  · intro s
    refine ⟨fun h1 => by simp [packShrink, h1], fun h1 h2 => ?_, fun h1 h2 => ?_⟩
    · simp [packShrink, not_lt.mpr h1, h2]
    · simp [packShrink, not_lt.mpr h1, not_lt.mpr h2]

theorem shrink_priority_amended_witness :
    trajState env0 1 = packShrink (trajState env0 0) :=
  (shrink_priority_amended env0 0 (by decide)).1

/-- C6: for a fixed text line (text, weight, candidate, floor), the fitted
size is monotone in the available width: a narrower span never yields a
larger font size. -/
theorem fitTextSize_mono_width (ctx : Ctx) (text : List Char) (weight startPx minPx : Int)
    (w1 w2 : ℚ) (hw : w1 ≤ w2) :
    fitTextSize ctx text w1 weight startPx minPx ≤
      fitTextSize ctx text w2 weight startPx minPx :=
  fitTextSizeLoop_mono_width ctx text weight minPx w1 w2 hw _ startPx

/-- A measurement monotone in the font size: width 0 up to size 11, width 100
above. -/
def ctxStep : Ctx := ⟨fun _ sizePx _ => if sizePx ≤ 11 then 0 else 100⟩

theorem fitTextSize_mono_width_witness :
    fitTextSize ctxStep [] 30 900 12 4 ≤ fitTextSize ctxStep [] 50 900 12 4 :=
  fitTextSize_mono_width ctxStep [] 900 12 4 30 50 (by norm_num)

/-- C3 counterexample: with the monotone measurement `ctxStep`, candidate 12,
floor 4 and available width 50, size 11 fits and is at most the candidate,
yet `fitTextSize` returns 10: the 2px decrement skips size 11, so the result
is maximal only among the probed sizes, not among all sizes up to the
candidate. -/
theorem fit_not_largest_counterexample :
    fitTextSize ctxStep [] 50 900 12 4 = 10 ∧
    ctxStep.measure 900 11 [] ≤ 50 ∧
    (11 : Int) ≤ 12 ∧ (4 : Int) ≤ 11 ∧
    fitTextSize ctxStep [] 50 900 12 4 < 11 := by decide

/-- C3 (amended): `fitTextSize` returns the largest of the probed sizes
(candidate, candidate-2, candidate-4, ... while above the floor) at which the
measured width fits; when no probed size above the floor fits - in particular
when no size at all fits - it returns the floor, and `drawCenteredText` draws
at the returned size without raising an error. -/
theorem fitTextSize_probed_spec (ctx : Ctx) (text : List Char) (maxWidth : ℚ)
    (weight startPx minPx : Int) :
    minPx ≤ fitTextSize ctx text maxWidth weight startPx minPx ∧
    drawCenteredText ctx text maxWidth weight startPx minPx =
      fitTextSize ctx text maxWidth weight startPx minPx ∧
    (fitTextSize ctx text maxWidth weight startPx minPx = minPx ∨
      (minPx < fitTextSize ctx text maxWidth weight startPx minPx ∧
        (∃ k : Nat,
          fitTextSize ctx text maxWidth weight startPx minPx = startPx - 2 * (k : Int)) ∧
        ctx.measure weight (fitTextSize ctx text maxWidth weight startPx minPx) text
          ≤ maxWidth)) ∧
    (∀ t : Int, (∃ k : Nat, t = startPx - 2 * (k : Int)) → minPx < t →
      fitTextSize ctx text maxWidth weight startPx minPx < t →
      ¬ ctx.measure weight t text ≤ maxWidth) :=
  ⟨fitTextSize_ge_min ctx text maxWidth weight startPx minPx, rfl,
    fitTextSizeLoop_mem ctx text maxWidth weight minPx _ startPx,
    fitTextSizeLoop_maximal ctx text maxWidth weight minPx _ startPx (by omega)⟩

theorem fitTextSize_probed_spec_witness :
    ¬ ctxStep.measure 900 14 [] ≤ 50 :=
  (fitTextSize_probed_spec ctxStep [] 50 900 16 4).2.2.2 14 ⟨1, by decide⟩
    (by decide) (by decide)

/-
Pixel-level semantics of `rotateCanvas90CWTo`.  The source sets up
`translate(outW, 0)` followed by `rotate(Math.PI / 2)` and blits the source
canvas: a source point (x, y) lands at (outW - y, x), so the source pixel
cell [x, x+1) x [y, y+1) of a w x h canvas covers the output pixel
(outW - 1 - y, x) of the h x w output (the call passes outW = source height).
Pixels are addressed as functions on `Fin`; `Fin.rev` is the reflection
i ↦ size - 1 - i.
-/

def rotateCanvas90CWTo {α : Type} {w h : Nat} (src : Fin w → Fin h → α) :
    Fin h → Fin w → α :=
  fun outX outY => src outY outX.rev

/-- Modelled from the spec: the repository has no counter-clockwise rotation;
this is the standard 90 degree counter-clockwise pixel rotation
(`translate(0, outH)` then `rotate(-Math.PI / 2)`), under which the pixel
(x, y) of the w x h result reads source pixel (srcW - 1 - y, x). -/
def rotate90CCW {α : Type} {w h : Nat} (img : Fin h → Fin w → α) :
    Fin w → Fin h → α :=
  fun outX outY => img outY.rev outX

/-- C7: rotating a composed bitmap 90 degrees clockwise with
`rotateCanvas90CWTo` and then 90 degrees counter-clockwise reproduces the
original pixel content exactly. -/
theorem rotate_roundtrip {α : Type} (w h : Nat) (src : Fin w → Fin h → α) :
    rotate90CCW (rotateCanvas90CWTo src) = src := by
  funext x y
  simp [rotate90CCW, rotateCanvas90CWTo, Fin.rev_rev]

/-- Modelled from the spec side of C9: escaping inserts a backslash before
each backslash, semicolon, comma, colon and double quote, leaving every other
character unchanged. -/
def escapeSpec : List Char → List Char
  | [] => []
  | c :: rest =>
    if c = '\\' ∨ c = ';' ∨ c = ',' ∨ c = ':' ∨ c = '\"' then '\\' :: c :: escapeSpec rest
    else c :: escapeSpec rest

theorem escapeWifi_eq_escapeSpec : ∀ l : List Char, escapeWifi l = escapeSpec l := by
  intro l
  induction l with
  | nil => rfl
  | cons c rest ih =>
    simp only [escapeWifi, List.map_cons, List.flatten_cons] at ih ⊢
    rw [ih]
    by_cases h : wifiSpecial c = true
    · have h' : c = '\\' ∨ c = ';' ∨ c = ',' ∨ c = ':' ∨ c = '\"' := by
        simp [wifiSpecial] at h
        tauto
      simp [escapeSpec, h, h']
    · have h' : ¬(c = '\\' ∨ c = ';' ∨ c = ',' ∨ c = ':' ∨ c = '\"') := by
        simp [wifiSpecial] at h
        tauto
      simp [escapeSpec, h, h']

/-- C9: `generateValue` emits exactly `WIFI:T:nopass;S:<ssid>;;` for an open
item and `WIFI:T:WPA;S:<ssid>;P:<password>;;` otherwise, where the ssid and
password are the trimmed inputs with a backslash inserted before each
backslash, semicolon, comma, colon and double quote. -/
theorem generateValue_spec (item : WifiItem) :
    (item.isOpen = true →
      generateValue item =
        "WIFI:T:nopass;S:".data ++ escapeSpec (jsTrim item.ssid) ++ ";;".data) ∧
    (item.isOpen = false →
      generateValue item =
        "WIFI:T:WPA;S:".data ++ escapeSpec (jsTrim item.ssid) ++ ";P:".data ++
          escapeSpec (jsTrim item.password) ++ ";;".data) := by
  constructor <;> intro h <;> simp [generateValue, h, escapeWifi_eq_escapeSpec]

def itemDemo : WifiItem := ⟨" Cafe;Net ".data, "p:a\\ss,wd\"x".data, false, "5.0".data⟩

theorem generateValue_spec_witness :
    generateValue itemDemo =
      "WIFI:T:WPA;S:".data ++ escapeSpec (jsTrim " Cafe;Net ".data) ++ ";P:".data ++
        escapeSpec (jsTrim "p:a\\ss,wd\"x".data) ++ ";;".data :=
  (generateValue_spec itemDemo).2 rfl

/-- C10: the claim (and the source comment "allow a single dot") promise at
most one period, but the greedy regex pass only deletes the last dot, so an
input with three dots keeps two of them: `sanitizeNumericDot` maps
`"1.2.3.4"` to `"1.2.34"`. -/
theorem sanitizeNumericDot_two_dots :
    sanitizeNumericDot "1.2.3.4".data = "1.2.34".data ∧
    ("1.2.34".data.count '.') = 2 := by decide

/-
`getBackgroundBoundsFromImage` (part_002).  The decoded image is modelled as
its pixel grid; `getImageData` reads are pure lookups (the try/catch fallback
for unreadable data never fires in the model).  `Math.sqrt(d) <= t` with
`d ≥ 0` is encoded square-root-free as `0 ≤ t ∧ d ≤ t^2`.
-/

/-- One RGBA pixel, channels 0..255. -/
structure Rgba where
  r : Nat
  g : Nat
  b : Nat
  a : Nat
deriving DecidableEq

/-- A decoded image: natural dimensions and the pixel grid. -/
structure PixImage where
  width : Nat
  height : Nat
  px : Nat → Nat → Rgba

/-- The option object with its default values. -/
structure BgOpts where
  alphaThreshold : Nat := 10
  tolerance : ℚ := 24
  sampleSize : Nat := 12
  lumaDelta : ℚ := 10

/-- The returned rectangle `{ x, y, w, h }`. -/
structure ImageBounds where
  x : Int
  y : Int
  w : Int
  h : Int
deriving DecidableEq

/-- `w = Math.max(1, Math.floor(img.naturalWidth || img.width || 1))`. -/
def imgW (img : PixImage) : Nat := max 1 img.width

def imgH (img : PixImage) : Nat := max 1 img.height

/-- `s = clamp(sampleSize, 1, Math.min(w, h))`. -/
def sampleS (img : PixImage) (opts : BgOpts) : Nat :=
  max 1 (min opts.sampleSize (min (imgW img) (imgH img)))

/-- The coordinates of an `s x s` rectangle at `(rx, ry)`, row-major as
`getImageData` yields them. -/
def rectCoords (rx ry s : Nat) : List (Nat × Nat) :=
  ((List.range s).map (fun dy => (List.range s).map (fun dx => (rx + dx, ry + dy)))).flatten

/-- The four corner sample rectangles. -/
def cornerCoords (img : PixImage) (opts : BgOpts) : List (Nat × Nat) :=
  rectCoords 0 0 (sampleS img opts) ++
    rectCoords (imgW img - sampleS img opts) 0 (sampleS img opts) ++
    rectCoords 0 (imgH img - sampleS img opts) (sampleS img opts) ++
    rectCoords (imgW img - sampleS img opts) (imgH img - sampleS img opts) (sampleS img opts)

/-- The corner samples that pass the alpha threshold; only they contribute to
the background estimate (`if (a <= alphaThreshold) continue`). -/
def cornerOpaque (img : PixImage) (opts : BgOpts) : List Rgba :=
  ((cornerCoords img opts).map (fun p => img.px p.1 p.2)).filter
    (fun c => opts.alphaThreshold < c.a)

/-- `bgR = sumR / count` (the channel sums are sums of integers; only the
final average is fractional). -/
def bgR (img : PixImage) (opts : BgOpts) : ℚ :=
  (((((cornerOpaque img opts).map (fun c => c.r)).sum : Nat) : ℚ)) / ((cornerOpaque img opts).length : ℚ)

def bgG (img : PixImage) (opts : BgOpts) : ℚ :=
  (((((cornerOpaque img opts).map (fun c => c.g)).sum : Nat) : ℚ)) / ((cornerOpaque img opts).length : ℚ)

def bgB (img : PixImage) (opts : BgOpts) : ℚ :=
  (((((cornerOpaque img opts).map (fun c => c.b)).sum : Nat) : ℚ)) / ((cornerOpaque img opts).length : ℚ)

/-- `0.2126 * r + 0.7152 * g + 0.0722 * b`. -/
def lumaQ (r g b : ℚ) : ℚ :=
  2126 / 10000 * r + 7152 / 10000 * g + 722 / 10000 * b

def bgL (img : PixImage) (opts : BgOpts) : ℚ :=
  lumaQ (bgR img opts) (bgG img opts) (bgB img opts)

/-- `Math.sqrt(d2) <= t` for a nonnegative radicand, written without square
roots. -/
def sqrtLe (d2 t : ℚ) : Bool :=
  decide (0 ≤ t ∧ d2 ≤ t ^ 2)

/-- The per-pixel body of the scan loop, with the background estimate
supplied once (as the source computes it before the loop): a pixel is
foreground when it is opaque enough and passes neither near-background
test. -/
def foregroundPx (opts : BgOpts) (br bg bb bl : ℚ) (c : Rgba) : Bool :=
  if c.a ≤ opts.alphaThreshold then false
  else
    let dr : ℚ := (c.r : ℚ) - br
    let dg : ℚ := (c.g : ℚ) - bg
    let db : ℚ := (c.b : ℚ) - bb
    let dist2 := dr ^ 2 + dg ^ 2 + db ^ 2
    let luma := lumaQ (c.r : ℚ) (c.g : ℚ) (c.b : ℚ)
    if sqrtLe dist2 opts.tolerance && decide (bl - opts.lumaDelta ≤ luma) then false
    else if decide (bl - max 3 (opts.lumaDelta / 2) ≤ luma) && sqrtLe dist2 (opts.tolerance * 2)
      then false
    else true

/-- Whether the scan classifies pixel `(x, y)` as foreground. -/
def foregroundAt (img : PixImage) (opts : BgOpts) (x y : Nat) : Bool :=
  foregroundPx opts (bgR img opts) (bgG img opts) (bgB img opts) (bgL img opts) (img.px x y)

/-- The running `minX / minY / maxX / maxY` of the scan loop. -/
structure ScanAcc where
  minX : Int
  minY : Int
  maxX : Int
  maxY : Int
deriving DecidableEq

/-- One scan-loop iteration: a foreground pixel lowers the minima and raises
the maxima (`if (x < minX) minX = x;` and friends), any other pixel is
skipped. -/
def scanStep (fg : Nat → Nat → Bool) (acc : ScanAcc) (p : Nat × Nat) : ScanAcc :=
  if fg p.1 p.2 then
    ⟨min acc.minX (p.1 : Int), min acc.minY (p.2 : Int),
      max acc.maxX (p.1 : Int), max acc.maxY (p.2 : Int)⟩
  else acc

/-- All pixel coordinates in scan order: `y` outer, `x` inner. -/
def scanCoords (w h : Nat) : List (Nat × Nat) :=
  ((List.range h).map (fun y => (List.range w).map (fun x => (x, y)))).flatten

/-- The accumulator after the full scan, started at
`minX = w, minY = h, maxX = -1, maxY = -1`. -/
def scanAcc (img : PixImage) (opts : BgOpts) : ScanAcc :=
  (scanCoords (imgW img) (imgH img)).foldl (scanStep (foregroundAt img opts))
    ⟨(imgW img : Int), (imgH img : Int), -1, -1⟩

/-- `getBackgroundBoundsFromImage`: full bounds when no corner sample is
opaque, full bounds when the scan finds no foreground pixel, otherwise the
min/max rectangle. -/
def getBackgroundBoundsFromImage (img : PixImage) (opts : BgOpts) : ImageBounds :=
  if (cornerOpaque img opts).length = 0 then ⟨0, 0, (imgW img : Int), (imgH img : Int)⟩
  else
    let acc := scanAcc img opts
    if acc.maxX < acc.minX ∨ acc.maxY < acc.minY then
      ⟨0, 0, (imgW img : Int), (imgH img : Int)⟩
    else ⟨acc.minX, acc.minY, acc.maxX - acc.minX + 1, acc.maxY - acc.minY + 1⟩

theorem foldl_min_le_init (l : List Int) : ∀ a : Int, l.foldl min a ≤ a := by
  induction l with
  | nil => intro a; simp
  | cons x l ih => intro a; exact le_trans (ih (min a x)) (min_le_left a x)

theorem foldl_min_le_mem (l : List Int) : ∀ (a x : Int), x ∈ l → l.foldl min a ≤ x := by
  induction l with
  | nil => intro a x hx; cases hx
  | cons y l ih =>
    intro a x hx
    rcases List.mem_cons.mp hx with h | h
    · subst h; exact le_trans (foldl_min_le_init l (min a x)) (min_le_right a x)
    · exact ih (min a y) x h

theorem foldl_min_cases (l : List Int) : ∀ a : Int, l.foldl min a = a ∨ l.foldl min a ∈ l := by
  induction l with
  | nil => intro a; left; rfl
  | cons x l ih =>
    intro a
    rcases ih (min a x) with h | h
    · rcases le_total a x with hax | hxa
      · left; rw [List.foldl_cons, h, min_eq_left hax]
      · right; rw [List.foldl_cons, h, min_eq_right hxa]; exact List.mem_cons_self x l
    · right; exact List.mem_cons_of_mem x h

theorem foldl_max_ge_init (l : List Int) : ∀ a : Int, a ≤ l.foldl max a := by
  induction l with
  | nil => intro a; simp
  | cons x l ih => intro a; exact le_trans (le_max_left a x) (ih (max a x))

theorem foldl_max_ge_mem (l : List Int) : ∀ (a x : Int), x ∈ l → x ≤ l.foldl max a := by
  induction l with
  | nil => intro a x hx; cases hx
  | cons y l ih =>
    intro a x hx
    rcases List.mem_cons.mp hx with h | h
    · subst h; exact le_trans (le_max_right a x) (foldl_max_ge_init l (max a x))
    · exact ih (max a y) x h

theorem foldl_max_cases (l : List Int) : ∀ a : Int, l.foldl max a = a ∨ l.foldl max a ∈ l := by
  induction l with
  | nil => intro a; left; rfl
  | cons x l ih =>
    intro a
    rcases ih (max a x) with h | h
    · rcases le_total x a with hax | hxa
      · left; rw [List.foldl_cons, h, max_eq_left hax]
      · right; rw [List.foldl_cons, h, max_eq_right hxa]; exact List.mem_cons_self x l
    · right; exact List.mem_cons_of_mem x h

/-- The scan fold computes, componentwise, the fold of `min` / `max` over the
coordinates of the foreground pixels of the list. -/
theorem scanFold_spec (fg : Nat → Nat → Bool) :
    ∀ (l : List (Nat × Nat)) (acc : ScanAcc),
      l.foldl (scanStep fg) acc =
        ⟨((l.filter (fun p => fg p.1 p.2)).map (fun p => ((p.1 : Nat) : Int))).foldl min acc.minX,
         ((l.filter (fun p => fg p.1 p.2)).map (fun p => ((p.2 : Nat) : Int))).foldl min acc.minY,
         ((l.filter (fun p => fg p.1 p.2)).map (fun p => ((p.1 : Nat) : Int))).foldl max acc.maxX,
         ((l.filter (fun p => fg p.1 p.2)).map (fun p => ((p.2 : Nat) : Int))).foldl max acc.maxY⟩ := by
  intro l
  induction l with
  | nil => intro acc; rfl
  | cons p l ih =>
    intro acc
    by_cases h : fg p.1 p.2
    · simp only [List.foldl_cons, List.filter_cons, h, if_true, List.map_cons]
      rw [ih]
      simp [scanStep, h]
    · simp only [List.foldl_cons, List.filter_cons, h]
      rw [ih]
      simp [scanStep, h]

theorem scanCoords_mem (w h x y : Nat) : (x, y) ∈ scanCoords w h ↔ x < w ∧ y < h := by
  constructor
  · intro hm
    simp only [scanCoords, List.mem_flatten, List.mem_map, List.mem_range] at hm
    obtain ⟨row, ⟨y0, hy0, hrow⟩, hx⟩ := hm
    subst hrow
    simp only [List.mem_map, List.mem_range] at hx
    obtain ⟨x0, hx0, hxy⟩ := hx
    cases hxy
    exact ⟨hx0, hy0⟩
  · intro ⟨hx, hy⟩
    simp only [scanCoords, List.mem_flatten, List.mem_map, List.mem_range]
    exact ⟨(List.range w).map (fun x => (x, y)), ⟨y, hy, rfl⟩, by
      simp only [List.mem_map, List.mem_range]
      exact ⟨x, hx, rfl⟩⟩

theorem scanAcc_bounds (img : PixImage) (opts : BgOpts) (x y : Nat)
    (hx : x < imgW img) (hy : y < imgH img) (hfg : foregroundAt img opts x y = true) :
    (scanAcc img opts).minX ≤ (x : Int) ∧ (x : Int) ≤ (scanAcc img opts).maxX ∧
    (scanAcc img opts).minY ≤ (y : Int) ∧ (y : Int) ≤ (scanAcc img opts).maxY := by
  have hmem : (x, y) ∈ scanCoords (imgW img) (imgH img) :=
    (scanCoords_mem (imgW img) (imgH img) x y).mpr ⟨hx, hy⟩
  have hmf : (x, y) ∈ (scanCoords (imgW img) (imgH img)).filter
      (fun p => foregroundAt img opts p.1 p.2) :=
    List.mem_filter.mpr ⟨hmem, hfg⟩
  rw [scanAcc, scanFold_spec]
  refine ⟨?_, ?_, ?_, ?_⟩
  · exact foldl_min_le_mem _ _ _ (List.mem_map_of_mem _ hmf)
  · exact foldl_max_ge_mem _ _ _ (List.mem_map_of_mem _ hmf)
  · exact foldl_min_le_mem _ _ _ (List.mem_map_of_mem _ hmf)
  · exact foldl_max_ge_mem _ _ _ (List.mem_map_of_mem _ hmf)

theorem scanAcc_attained (img : PixImage) (opts : BgOpts)
    (hex : ∃ x y : Nat, x < imgW img ∧ y < imgH img ∧ foregroundAt img opts x y = true) :
    (∃ x y : Nat, x < imgW img ∧ y < imgH img ∧ foregroundAt img opts x y = true ∧
      (x : Int) = (scanAcc img opts).minX) ∧
    (∃ x y : Nat, x < imgW img ∧ y < imgH img ∧ foregroundAt img opts x y = true ∧
      (x : Int) = (scanAcc img opts).maxX) ∧
    (∃ x y : Nat, x < imgW img ∧ y < imgH img ∧ foregroundAt img opts x y = true ∧
      (y : Int) = (scanAcc img opts).minY) ∧
    (∃ x y : Nat, x < imgW img ∧ y < imgH img ∧ foregroundAt img opts x y = true ∧
      (y : Int) = (scanAcc img opts).maxY) := by
  obtain ⟨x0, y0, hx0, hy0, hf0⟩ := hex
  have hb := scanAcc_bounds img opts x0 y0 hx0 hy0 hf0
  have hmemof : ∀ p : Nat × Nat,
      p ∈ (scanCoords (imgW img) (imgH img)).filter
        (fun q => foregroundAt img opts q.1 q.2) →
      p.1 < imgW img ∧ p.2 < imgH img ∧ foregroundAt img opts p.1 p.2 = true := by
    intro p hp
    have h1 := (List.mem_filter.mp hp).1
    have h2 := (List.mem_filter.mp hp).2
    have h3 := (scanCoords_mem (imgW img) (imgH img) p.1 p.2).mp (by simpa using h1)
    exact ⟨h3.1, h3.2, by simpa using h2⟩
  rw [scanAcc, scanFold_spec] at hb ⊢
  simp only at hb ⊢
  refine ⟨?_, ?_, ?_, ?_⟩
  · rcases foldl_min_cases (((scanCoords (imgW img) (imgH img)).filter
        (fun p => foregroundAt img opts p.1 p.2)).map (fun p => ((p.1 : Nat) : Int)))
        ((imgW img : Nat) : Int) with h | h
    · rw [h] at hb; omega
    · obtain ⟨p, hpL, hfp⟩ := List.mem_map.mp h
      obtain ⟨hpw, hph, hpf⟩ := hmemof p hpL
      exact ⟨p.1, p.2, hpw, hph, hpf, hfp⟩
  · rcases foldl_max_cases (((scanCoords (imgW img) (imgH img)).filter
        (fun p => foregroundAt img opts p.1 p.2)).map (fun p => ((p.1 : Nat) : Int)))
        (-1) with h | h
    · rw [h] at hb; omega
    · obtain ⟨p, hpL, hfp⟩ := List.mem_map.mp h
      obtain ⟨hpw, hph, hpf⟩ := hmemof p hpL
      exact ⟨p.1, p.2, hpw, hph, hpf, hfp⟩
  · rcases foldl_min_cases (((scanCoords (imgW img) (imgH img)).filter
        (fun p => foregroundAt img opts p.1 p.2)).map (fun p => ((p.2 : Nat) : Int)))
        ((imgH img : Nat) : Int) with h | h
    · rw [h] at hb; omega
    · obtain ⟨p, hpL, hfp⟩ := List.mem_map.mp h
      obtain ⟨hpw, hph, hpf⟩ := hmemof p hpL
      exact ⟨p.1, p.2, hpw, hph, hpf, hfp⟩
  · rcases foldl_max_cases (((scanCoords (imgW img) (imgH img)).filter
        (fun p => foregroundAt img opts p.1 p.2)).map (fun p => ((p.2 : Nat) : Int)))
        (-1) with h | h
    · rw [h] at hb; omega
    · obtain ⟨p, hpL, hfp⟩ := List.mem_map.mp h
      obtain ⟨hpw, hph, hpf⟩ := hmemof p hpL
      exact ⟨p.1, p.2, hpw, hph, hpf, hfp⟩


/-- The C8 scenario image: 30x30, uniform white, opaque, with a 10x10 black
square centered at pixels 10..19 in both axes. -/
def squareImage : PixImage :=
  ⟨30, 30, fun x y =>
    if 10 ≤ x ∧ x < 20 ∧ 10 ≤ y ∧ y < 20 then ⟨0, 0, 0, 255⟩ else ⟨255, 255, 255, 255⟩⟩

theorem squareImage_corner_len : (cornerOpaque squareImage {}).length = 576 := by decide

/-- The corner estimate of `squareImage`: the 12x12 corner rectangles overlap
the square in 16 of their 576 pixels, so the estimated background is
`560 * 255 / 576 = 2975/12` on every channel. -/
theorem squareImage_bg :
    bgR squareImage {} = 2975 / 12 ∧ bgG squareImage {} = 2975 / 12 ∧
    bgB squareImage {} = 2975 / 12 ∧ bgL squareImage {} = 2975 / 12 := by
  have hr : ((cornerOpaque squareImage {}).map (fun c => c.r)).sum = 142800 := by decide
  have hg : ((cornerOpaque squareImage {}).map (fun c => c.g)).sum = 142800 := by decide
  have hb : ((cornerOpaque squareImage {}).map (fun c => c.b)).sum = 142800 := by decide
  have hbgR : bgR squareImage {} = 2975 / 12 := by
    rw [bgR, hr, squareImage_corner_len]; norm_num
  have hbgG : bgG squareImage {} = 2975 / 12 := by
    rw [bgG, hg, squareImage_corner_len]; norm_num
  have hbgB : bgB squareImage {} = 2975 / 12 := by
    rw [bgB, hb, squareImage_corner_len]; norm_num
  refine ⟨hbgR, hbgG, hbgB, ?_⟩
  rw [bgL, hbgR, hbgG, hbgB, lumaQ]
  norm_num

/-- On `squareImage` the scan classifies exactly the black square as
foreground. -/
theorem squareImage_fg :
    foregroundAt squareImage {} =
      fun x y => decide (10 ≤ x ∧ x < 20 ∧ 10 ≤ y ∧ y < 20) := by
  funext x y
  simp only [foregroundAt]
  rw [squareImage_bg.1, squareImage_bg.2.1, squareImage_bg.2.2.1, squareImage_bg.2.2.2]
  by_cases h : 10 ≤ x ∧ x < 20 ∧ 10 ≤ y ∧ y < 20
  · have hpx : squareImage.px x y = ⟨0, 0, 0, 255⟩ := by simp [squareImage, h]
    rw [hpx]
    simp only [h, decide_eq_true_eq]
    norm_num [foregroundPx, sqrtLe, lumaQ]
  · have hpx : squareImage.px x y = ⟨255, 255, 255, 255⟩ := by simp [squareImage, h]
    rw [hpx]
    simp only [h]
    norm_num [foregroundPx, sqrtLe, lumaQ]

theorem squareImage_scanAcc : scanAcc squareImage {} = ⟨10, 10, 19, 19⟩ := by
  rw [scanAcc, squareImage_fg]
  decide

/-- C8: `getBackgroundBoundsFromImage` returns the full image bounds when
corner sampling yields no opaque pixel; every foreground pixel (color distance
from the corner-sampled background estimate beyond the tolerance, with the
luma leniency band) lies inside the returned rectangle; when corner sampling
succeeded and a foreground pixel exists, every edge of the rectangle is
attained by a foreground pixel, so the rectangle is the tight bounding box of
the foreground; and on a 30x30 uniform white image with a centered 10x10
black square the returned box is the square `x = y = 10, w = h = 10`, not the
full canvas. -/
theorem getBackgroundBounds_spec :
    (∀ (img : PixImage) (opts : BgOpts), (cornerOpaque img opts).length = 0 →
      getBackgroundBoundsFromImage img opts =
        ⟨0, 0, (imgW img : Int), (imgH img : Int)⟩) ∧
    (∀ (img : PixImage) (opts : BgOpts) (x y : Nat),
      x < imgW img → y < imgH img → foregroundAt img opts x y = true →
      (getBackgroundBoundsFromImage img opts).x ≤ (x : Int) ∧
      (x : Int) < (getBackgroundBoundsFromImage img opts).x +
        (getBackgroundBoundsFromImage img opts).w ∧
      (getBackgroundBoundsFromImage img opts).y ≤ (y : Int) ∧
      (y : Int) < (getBackgroundBoundsFromImage img opts).y +
        (getBackgroundBoundsFromImage img opts).h) ∧
    (∀ (img : PixImage) (opts : BgOpts), (cornerOpaque img opts).length ≠ 0 →
      (∃ x y : Nat, x < imgW img ∧ y < imgH img ∧ foregroundAt img opts x y = true) →
      (∃ x y : Nat, x < imgW img ∧ y < imgH img ∧ foregroundAt img opts x y = true ∧
        (x : Int) = (getBackgroundBoundsFromImage img opts).x) ∧
      (∃ x y : Nat, x < imgW img ∧ y < imgH img ∧ foregroundAt img opts x y = true ∧
        (x : Int) = (getBackgroundBoundsFromImage img opts).x +
          (getBackgroundBoundsFromImage img opts).w - 1) ∧
      (∃ x y : Nat, x < imgW img ∧ y < imgH img ∧ foregroundAt img opts x y = true ∧
        (y : Int) = (getBackgroundBoundsFromImage img opts).y) ∧
      (∃ x y : Nat, x < imgW img ∧ y < imgH img ∧ foregroundAt img opts x y = true ∧
        (y : Int) = (getBackgroundBoundsFromImage img opts).y +
          (getBackgroundBoundsFromImage img opts).h - 1)) ∧
    getBackgroundBoundsFromImage squareImage {} = ⟨10, 10, 10, 10⟩ := by
  refine ⟨?_, ?_, ?_, ?_⟩
  · intro img opts h
    simp [getBackgroundBoundsFromImage, h]
  · intro img opts x y hx hy hfg
    by_cases hc : (cornerOpaque img opts).length = 0
    · have hbox : getBackgroundBoundsFromImage img opts =
          ⟨0, 0, (imgW img : Int), (imgH img : Int)⟩ := by
        simp [getBackgroundBoundsFromImage, hc]
      rw [hbox]
      dsimp only
      refine ⟨by positivity, by omega, by positivity, by omega⟩
    · have hb := scanAcc_bounds img opts x y hx hy hfg
      have hnd : ¬((scanAcc img opts).maxX < (scanAcc img opts).minX ∨
          (scanAcc img opts).maxY < (scanAcc img opts).minY) := by omega
      have hbox : getBackgroundBoundsFromImage img opts =
          ⟨(scanAcc img opts).minX, (scanAcc img opts).minY,
            (scanAcc img opts).maxX - (scanAcc img opts).minX + 1,
            (scanAcc img opts).maxY - (scanAcc img opts).minY + 1⟩ := by
        simp [getBackgroundBoundsFromImage, hc, hnd]
      rw [hbox]
      dsimp only
      refine ⟨hb.1, by omega, hb.2.2.1, by omega⟩
  · intro img opts hc hex
    obtain ⟨x0, y0, hx0, hy0, hf0⟩ := hex
    have hb := scanAcc_bounds img opts x0 y0 hx0 hy0 hf0
    have hnd : ¬((scanAcc img opts).maxX < (scanAcc img opts).minX ∨
        (scanAcc img opts).maxY < (scanAcc img opts).minY) := by omega
    have hbox : getBackgroundBoundsFromImage img opts =
        ⟨(scanAcc img opts).minX, (scanAcc img opts).minY,
          (scanAcc img opts).maxX - (scanAcc img opts).minX + 1,
          (scanAcc img opts).maxY - (scanAcc img opts).minY + 1⟩ := by
      simp [getBackgroundBoundsFromImage, hc, hnd]
    have hat := scanAcc_attained img opts ⟨x0, y0, hx0, hy0, hf0⟩
    rw [hbox]
    dsimp only
    refine ⟨hat.1, ?_, hat.2.2.1, ?_⟩
    · obtain ⟨x1, y1, h1, h2, h3, h4⟩ := hat.2.1
      exact ⟨x1, y1, h1, h2, h3, by omega⟩
    · obtain ⟨x1, y1, h1, h2, h3, h4⟩ := hat.2.2.2
      exact ⟨x1, y1, h1, h2, h3, by omega⟩
  · have hc : ¬((cornerOpaque squareImage {}).length = 0) := by
      rw [squareImage_corner_len]; omega
    have hnd : ¬((scanAcc squareImage {}).maxX < (scanAcc squareImage {}).minX ∨
        (scanAcc squareImage {}).maxY < (scanAcc squareImage {}).minY) := by
      rw [squareImage_scanAcc]; dsimp only; omega
    have hbox : getBackgroundBoundsFromImage squareImage {} =
        ⟨(scanAcc squareImage {}).minX, (scanAcc squareImage {}).minY,
          (scanAcc squareImage {}).maxX - (scanAcc squareImage {}).minX + 1,
          (scanAcc squareImage {}).maxY - (scanAcc squareImage {}).minY + 1⟩ := by
      simp [getBackgroundBoundsFromImage, hc, hnd]
    rw [hbox, squareImage_scanAcc]
    norm_num

/-- A fully transparent 2x2 image: corner sampling finds no opaque pixel. -/
def clearImage : PixImage := ⟨2, 2, fun _ _ => ⟨0, 0, 0, 0⟩⟩

theorem getBackgroundBounds_spec_witness :
    getBackgroundBoundsFromImage clearImage {} = ⟨0, 0, 2, 2⟩ ∧
    ((getBackgroundBoundsFromImage squareImage {}).x ≤ (15 : Int) ∧
      (15 : Int) < (getBackgroundBoundsFromImage squareImage {}).x +
        (getBackgroundBoundsFromImage squareImage {}).w ∧
      (getBackgroundBoundsFromImage squareImage {}).y ≤ (12 : Int) ∧
      (12 : Int) < (getBackgroundBoundsFromImage squareImage {}).y +
        (getBackgroundBoundsFromImage squareImage {}).h) :=
  ⟨getBackgroundBounds_spec.1 clearImage {} (by decide),
    getBackgroundBounds_spec.2.1 squareImage {} 15 12 (by decide) (by decide)
      (by rw [squareImage_fg]; decide)⟩
